import Mathlib

/-!
Shallow embedding of `src/main.rs` of mayflower/github-data-fetch.

The program drains a paginated issues listing, partitions issues into
plain issues and pull-request-linked issues, writes the plain issues to
a msgpack snapshot, fetches each linked pull request through a retrying
lookup (`get_pull`), and writes the fetched pulls to a second snapshot.
Machine integers of the source (u64 issue numbers, times) are modelled
as `Nat`; no arithmetic in the program can overflow-wrap in a way any
claim depends on. Fallible steps are modelled with `Except`/explicit
outcome types. The remote endpoints, the msgpack encoder and the file
system are modelled as explicit parameters, since the source treats
them as external collaborators.
-/

set_option autoImplicit false

namespace GithubDataFetch

/-- A listing record (`hubcaps::issues::Issue`). Only the numeric key
(`number`), the pull-request discriminant (`pull_request`, present iff the
issue is linked to a pull request) and an opaque payload matter to the
engine; the source is agnostic to the rest of the shape. -/
structure Issue where
  number : Nat
  pull_request : Option Unit
  payload : Nat
deriving DecidableEq

/-- A detail record (`hubcaps::pulls::Pull`), keyed by the same numeric
key space, with an opaque payload. -/
structure Pull where
  number : Nat
  payload : Nat
deriving DecidableEq

/-- The `hubcaps::issues::State` filter: `State::All`, `State::Open`,
`State::Closed`. -/
inductive StateFilter where
  | all
  | opened
  | closed
deriving DecidableEq

/-- The listing options built in `handle_issues` via
`IssueListOptions::builder().state(State::All).asc().per_page(100)`. -/
structure IssueListOptions where
  state : StateFilter
  asc : Bool
  per_page : Nat
deriving DecidableEq

/-- Events of the pagination stream: the request of one page, and the
yield of one record from the current page. -/
inductive PageEvent where
  | request (idx : Nat)
  | yield (r : Issue)
deriving DecidableEq

/-- Modelled from the spec: the Paginator (`repo.issues().iter(..)`, code
of the hubcaps dependency, not under src/) drains a cursor-based listing
endpoint sequentially, one page at a time: it requests page `idx`, yields
every record of that page in server order, then moves to the next page,
and stops when the server signals no further pages. The server is
modelled as the finite list of pages it serves; after the last page the
continuation cursor is absent. -/
def paginateTrace : List (List Issue) → Nat → List PageEvent
  | [], _ => []
  | pg :: rest, idx =>
      PageEvent.request idx :: (pg.map PageEvent.yield ++ paginateTrace rest (idx + 1))

/-- Extract the record of a yield event. -/
def yieldOf : PageEvent → Option Issue
  | .yield r => some r
  | .request _ => none

/-- Whether a pagination event is a page request. -/
def isRequest : PageEvent → Bool
  | .request _ => true
  | .yield _ => false

/-- The sequence of records the Paginator yields
(`core.run(issues_stream.collect())`). -/
def paginate (pages : List (List Issue)) : List Issue :=
  (paginateTrace pages 0).filterMap yieldOf

/-- The partitioning step of `handle_issues`:
`partition(|i| !i.pull_request.is_some())` followed by
`pr_nums.into_iter().map(|i| i.number).collect()`. Returns the plain
issues (discriminant false) and the numeric keys of the
pull-request-linked issues, both in input order. -/
def partitionByPull (l : List Issue) : List Issue × List Nat :=
  let p := l.partition (fun i => !i.pull_request.isSome)
  (p.1, p.2.map Issue.number)

/-- The listing options built in `handle_issues`. -/
def listingOptions : IssueListOptions :=
  { state := StateFilter.all, asc := true, per_page := 100 }

/-- One response of the detail endpoint (`repo.pulls().get(n).get()`):
either a decoded pull, or a rate-limit rejection
(`ErrorKind::RateLimit .. reset ..`, where `reset` is the duration the
caller must wait, handed to `Timeout::new`), or any other error. Indexed
by the attempt number, so one value of `Nat → PullResponse` describes
the whole behaviour of the endpoint for one key. -/
inductive PullResponse where
  | ok (p : Pull)
  | rateLimit (reset : Nat)
  | otherError
deriving DecidableEq

/-- Outcome of one retrying lookup. `fatal` models the `panic!` taken on
any non-rate-limit error; `pending` models a lookup whose retry loop has
not terminated within the given fuel (the loop of the source is
unbounded). -/
inductive FetchOutcome where
  | success (p : Pull)
  | fatal
  | pending
deriving DecidableEq

/-- The retrying lookup `get_pull`, as a function of the endpoint
behaviour. One call is issued at time `now`; on `Ok` it returns the
pull; on any other error it is fatal (`panic!`). On a rate-limit
rejection the source constructs `Timeout::new(dt, ..)` but wraps it in
`future::result`, which resolves immediately with the timeout object
as its item, and `and_then(move |_| get_pull(repo, n))` discards that
item unpolled (the freshly created `Core` owning the timer is also
dropped at the end of the arm) — so the same lookup is re-issued
immediately, still at time `now`, without waiting for the signalled
reset. The second component is the list of times at which calls were
issued. `fuel` bounds the recursion depth of the model; the source
loop itself is unbounded. -/
def get_pull (resp : Nat → PullResponse) : Nat → Nat → Nat → FetchOutcome × List Nat
  | 0, _, _ => (FetchOutcome.pending, [])
  | fuel + 1, attempt, now =>
      match resp attempt with
      | .ok p => (FetchOutcome.success p, [now])
      | .rateLimit _ =>
          let r := get_pull resp fuel (attempt + 1) now
          (r.1, now :: r.2)
      | .otherError => (FetchOutcome.fatal, [now])

/-- Whether a lookup outcome is the fatal (`panic!`) outcome. -/
def FetchOutcome.isFatal : FetchOutcome → Bool
  | .fatal => true
  | _ => false

/-- Whether a lookup outcome is still pending (retry loop not finished). -/
def FetchOutcome.isPending : FetchOutcome → Bool
  | .pending => true
  | _ => false

/-- The pull carried by a successful outcome. -/
def FetchOutcome.pullOf : FetchOutcome → Option Pull
  | .success p => some p
  | _ => none

/-- The admission count of the throttle pool constructed in
`handle_pulls`: `ThrottleRate::new(20, Duration::from_secs(1))`. -/
def throttleCount : Nat := 20

/-- The window length, in seconds, of that throttle rate. -/
def throttleWindow : Nat := 1

/-- Start (admission) times of the outbound lookups dispatched by
`handle_pulls`. The source binds the throttle pool to `pool` and never
uses it again: no lookup future is routed through `pool.queue()`, and
`future::join_all` polls every lookup future as soon as `core.run`
starts, so each first call of every `get_pull` is issued at dispatch
time 0, with no admission gating. -/
def admissionTimes (pull_nums : List Nat) : List Nat :=
  pull_nums.map (fun _ => 0)

/-- How many admissions fall in the window `[t, t + throttleWindow)`. -/
def admissionsInWindow (times : List Nat) (t : Nat) : Nat :=
  times.countP (fun x => decide (t ≤ x ∧ x < t + throttleWindow))

/-- The per-key outcomes of the lookup futures built in `handle_pulls`
(`pull_nums.into_iter().map(|n| get_pull(repo, n))`), in key order.
`resp n` is the detail endpoint behaviour for key `n`. -/
def lookupOutcomes (resp : Nat → Nat → PullResponse) (fuel : Nat)
    (pull_nums : List Nat) : List FetchOutcome :=
  pull_nums.map (fun n => (get_pull (resp n) fuel 0 0).1)

/-- Result of `future::join_all` over the lookup futures: a `panic!` in
any lookup aborts the whole batch (fatal), a never-terminating retry
loop in any lookup keeps the batch from completing (pending), and
otherwise the collected pulls come out one per future, in the order the
futures were given. -/
inductive BatchResult where
  | ok (pulls : List Pull)
  | failed
  | pending
deriving DecidableEq

/-- Collect a list of lookup outcomes the way `future::join_all` does. -/
def joinAll (rs : List FetchOutcome) : BatchResult :=
  if rs.any FetchOutcome.isFatal then BatchResult.failed
  else if rs.any FetchOutcome.isPending then BatchResult.pending
  else BatchResult.ok (rs.filterMap FetchOutcome.pullOf)

/-- The throttled fetch stage `handle_pulls`: dispatch one `get_pull`
per key and join all results. -/
def handle_pulls (resp : Nat → Nat → PullResponse) (fuel : Nat)
    (pull_nums : List Nat) : BatchResult :=
  joinAll (lookupOutcomes resp fuel pull_nums)

/-- Write completed results into the result slots of `join_all`:
`sched` lists the indices of the futures in the order their completions
are observed, and each completion is stored in the slot of its
originating future, never appended. An index out of range writes
nothing. -/
def fillSlots (rs : List FetchOutcome) :
    List Nat → List (Option FetchOutcome) → List (Option FetchOutcome)
  | [], slots => slots
  | j :: rest, slots =>
      fillSlots rs rest (slots.set j (some (rs.getD j FetchOutcome.pending)))

/-- `join_all` under an explicit completion schedule: slots start empty,
completions are observed in `sched` order, and a slot never filled
leaves its future pending. -/
def joinAllScheduled (rs : List FetchOutcome) (sched : List Nat) : BatchResult :=
  joinAll ((fillSlots rs sched (List.replicate rs.length none)).map
    (fun o => o.getD FetchOutcome.pending))

/-- A file system: file name to contents (byte list), `none` when the
file does not exist. -/
def FS : Type := String → Option (List Nat)

/-- The empty file system. -/
def emptyFS : FS := fun _ => none

/-- Set the contents of one file. -/
def setFile (fs : FS) (name : String) (contents : List Nat) : FS :=
  fun n => if n = name then some contents else fs n

/-- Behaviour of the msgpack encoder (`rmp_serde`, an external
collaborator) on one concrete collection: the bytes it writes into the
open file handle before its outcome is decided, and whether encoding
completes. On failure the bytes already written stay in the file. -/
structure Encoding where
  bytes : List Nat
  ok : Bool
deriving DecidableEq

/-- The snapshot writer `serialize_to_file`: `fs::File::create`
(truncating any existing file to empty), then
`data.serialize(&mut Serializer::new(&mut file))` streaming the encoded
bytes into the handle. `createOk` models whether `File::create`
succeeds. The error of a failed encoding is returned after the create
and the partial write have already happened. -/
def serialize_to_file (createOk : Bool) (enc : Encoding) (name : String)
    (fs : FS) : Except Unit Unit × FS :=
  if createOk then
    let fs1 := setFile fs name []
    let fs2 := setFile fs1 name enc.bytes
    if enc.ok then (Except.ok (), fs2) else (Except.error (), fs2)
  else (Except.error (), fs)

/-- The steps of `run`, in source order: create the output directory,
build the listing options, drain the issue stream, partition, write the
issues snapshot, run the throttled pull fetch, write the pulls
snapshot. A step is recorded when it starts executing. -/
inductive StepKind where
  | mkdir
  | build (opts : IssueListOptions)
  | drain
  | split
  | writeIssues
  | fetchPulls
  | writePulls
deriving DecidableEq

/-- Process-level outcome of `run`: `Ok(())`, an error propagated by
`?` or a `panic!`, or a run that never finishes because a retry loop
never terminates. -/
inductive RunOutcome where
  | ok
  | failed
  | hung
deriving DecidableEq

/-- The external world `run` acts against: directory creation, the
listing endpoint (its pages and whether draining them fails with a
transport or decode error), the detail endpoint, the fuel bound of the
retry-loop model, and the encoder and create behaviour of the two
snapshot writes. -/
structure Env where
  mkdirOk : Bool
  listingOk : Bool
  pages : List (List Issue)
  resp : Nat → Nat → PullResponse
  fuel : Nat
  issuesCreateOk : Bool
  issuesEnc : List Issue → Encoding
  pullsCreateOk : Bool
  pullsEnc : List Pull → Encoding

/-- What one run leaves behind: its outcome, the steps that started, the
step that failed to complete (if any), and the resulting file system. -/
structure RunState where
  outcome : RunOutcome
  trace : List StepKind
  failedStep : Option StepKind
  fs : FS

/-- Name of the plain-collection snapshot written by `run`. -/
def issuesFile : String := "issues.msgpack"

/-- Name of the detail-collection snapshot written by `run`. -/
def pullsFile : String := "pulls.msgpack"

/-- The full step sequence of a run in which every step completes. -/
def fullSteps : List StepKind :=
  [StepKind.mkdir, StepKind.build listingOptions, StepKind.drain,
   StepKind.split, StepKind.writeIssues, StepKind.fetchPulls,
   StepKind.writePulls]

/-- The orchestrator `run`: create the output directory, drain and
partition the issues (`handle_issues`, which builds the listing options,
collects the stream and partitions it), write the issues snapshot, fetch
the pulls (`handle_pulls`), write the pulls snapshot; every step runs
only when every earlier step succeeded, each failure propagating by `?`
or `panic!`. -/
def run (env : Env) : RunState :=
  if env.mkdirOk then
    if env.listingOk then
      let parts := partitionByPull (paginate env.pages)
      let w1 := serialize_to_file env.issuesCreateOk (env.issuesEnc parts.1)
        issuesFile emptyFS
      match w1.1 with
      | .error _ =>
          ⟨RunOutcome.failed,
           [StepKind.mkdir, StepKind.build listingOptions, StepKind.drain,
            StepKind.split, StepKind.writeIssues],
           some StepKind.writeIssues, w1.2⟩
      | .ok _ =>
          match handle_pulls env.resp env.fuel parts.2 with
          | BatchResult.failed =>
              ⟨RunOutcome.failed,
               [StepKind.mkdir, StepKind.build listingOptions, StepKind.drain,
                StepKind.split, StepKind.writeIssues, StepKind.fetchPulls],
               some StepKind.fetchPulls, w1.2⟩
          | BatchResult.pending =>
              ⟨RunOutcome.hung,
               [StepKind.mkdir, StepKind.build listingOptions, StepKind.drain,
                StepKind.split, StepKind.writeIssues, StepKind.fetchPulls],
               some StepKind.fetchPulls, w1.2⟩
          | BatchResult.ok pulls =>
              let w2 := serialize_to_file env.pullsCreateOk (env.pullsEnc pulls)
                pullsFile w1.2
              match w2.1 with
              | .error _ =>
                  ⟨RunOutcome.failed, fullSteps, some StepKind.writePulls, w2.2⟩
              | .ok _ =>
                  ⟨RunOutcome.ok, fullSteps, none, w2.2⟩
    else
      ⟨RunOutcome.failed,
       [StepKind.mkdir, StepKind.build listingOptions, StepKind.drain],
       some StepKind.drain, emptyFS⟩
  else
    ⟨RunOutcome.failed, [StepKind.mkdir], some StepKind.mkdir, emptyFS⟩

/-! ## Theorems -/

/-- On any input list, `partitionByPull` is the pair of filters of the
two complementary discriminant values. -/
theorem partitionByPull_eq (l : List Issue) :
    partitionByPull l =
      (l.filter (fun i => !i.pull_request.isSome),
       (l.filter (fun i => i.pull_request.isSome)).map Issue.number) := by
  unfold partitionByPull
  rw [List.partition_eq_filter_filter]
  have hf : l.filter (not ∘ fun i => !i.pull_request.isSome) =
      l.filter (fun i => i.pull_request.isSome) :=
    List.filter_congr (fun x _ => by simp [Function.comp])
  rw [hf]

/-- The two filter classes of the discriminant cover the input. -/
theorem length_filter_disc (l : List Issue) :
    (l.filter (fun i => !i.pull_request.isSome)).length +
      (l.filter (fun i => i.pull_request.isSome)).length = l.length := by
  induction l with
  | nil => rfl
  | cons a t ih =>
      by_cases h : a.pull_request.isSome = true
      · simp only [List.filter_cons, h, Bool.not_true, if_false, if_true,
          List.length_cons, Bool.false_eq_true, ← ih]
        omega
      · simp only [List.filter_cons, h, Bool.not_eq_true] at *
        simp only [List.filter_cons, h, Bool.not_false, if_true, if_false,
          List.length_cons, Bool.false_eq_true, ← ih]
        omega

/-- Claim C1 (code-bug evidence): with 21 requested keys, `handle_pulls`
admits all 21 lookups in the 1-second window starting at time 0,
exceeding the configured admission count of 20 per window: the throttle
pool is constructed but no lookup is ever routed through it. -/
theorem claim_C1_code_bug :
    admissionsInWindow (admissionTimes (List.range 21)) 0 = 21 ∧
    throttleCount = 20 ∧
    throttleCount < admissionsInWindow (admissionTimes (List.range 21)) 0 := by
  decide

/-- Claim C4: the Partitioner returns in its first component exactly the
records whose pull-request discriminant is false, in input order (a
sublist of the input), in its second the numeric keys of the records
whose discriminant is true, in input order; every input record is
accounted for exactly once (the two output lengths sum to the input
length), and the empty input yields two empty outputs. -/
theorem claim_C4 (l : List Issue) :
    (∀ r, r ∈ (partitionByPull l).1 ↔ r ∈ l ∧ r.pull_request.isSome = false) ∧
    (partitionByPull l).2 =
      (l.filter (fun r => r.pull_request.isSome)).map Issue.number ∧
    List.Sublist (partitionByPull l).1 l ∧
    (partitionByPull l).1.length + (partitionByPull l).2.length = l.length ∧
    partitionByPull ([] : List Issue) = ([], []) := by
  rw [partitionByPull_eq]
  refine ⟨?_, rfl, List.filter_sublist l, ?_, rfl⟩
  · intro r
    simp [List.mem_filter]
  · rw [List.length_map]
    exact length_filter_disc l

/-- Claim C5 (counterexample): the detail-key set is not deduplicated.
On an input whose two records share key 5 and both carry the
pull-request discriminant, the key set is `[5, 5]`: key 5 appears
twice. -/
theorem claim_C5_counterexample :
    (partitionByPull [⟨5, some (), 0⟩, ⟨5, some (), 1⟩]).2 = [5, 5] ∧
    ¬ (partitionByPull [⟨5, some (), 0⟩, ⟨5, some (), 1⟩]).2.Nodup := by
  decide

/-- Claim C5 (amended): every key in the detail-key set is the key of a
predicate-true record of the input (no key is invented), and when the
input records carry pairwise-distinct keys no key appears in the
detail-key set more than once; duplicate keys in the input are passed
through, not deduplicated. -/
theorem claim_C5_amended (l : List Issue) :
    (∀ k, k ∈ (partitionByPull l).2 →
      ∃ r, r ∈ l ∧ r.pull_request.isSome = true ∧ r.number = k) ∧
    ((l.map Issue.number).Nodup → (partitionByPull l).2.Nodup) := by
  rw [partitionByPull_eq]
  constructor
  · intro k hk
    rcases List.exists_of_mem_map hk with ⟨r, hr, hrk⟩
    exact ⟨r, (List.mem_filter.mp hr).1, (List.mem_filter.mp hr).2, hrk⟩
  · intro hnd
    have hsub : List.Sublist (l.filter (fun r => r.pull_request.isSome)) l :=
      List.filter_sublist l
    have : List.Sublist
        ((l.filter (fun r => r.pull_request.isSome)).map Issue.number)
        (l.map Issue.number) := List.Sublist.map Issue.number hsub
    exact List.Nodup.sublist this hnd

/-- Claim C5 (witness): on an input with distinct keys 1 (linked) and 2
(plain), the detail-key set `[1]` has no duplicate. -/
theorem claim_C5_witness :
    (([⟨1, some (), 0⟩, ⟨2, none, 0⟩] : List Issue).map Issue.number).Nodup ∧
    (partitionByPull [⟨1, some (), 0⟩, ⟨2, none, 0⟩]).2.Nodup :=
  ⟨by decide, (claim_C5_amended [⟨1, some (), 0⟩, ⟨2, none, 0⟩]).2 (by decide)⟩

/-- Starting `get_pull` at attempt `a + 1` is the same as starting the
endpoint shifted by one attempt at attempt `a`. -/
theorem get_pull_shift (resp : Nat → PullResponse) :
    ∀ (fuel a now : Nat),
      get_pull resp fuel (a + 1) now =
        get_pull (fun i => resp (i + 1)) fuel a now := by
  intro fuel
  induction fuel with
  | zero => intro a now; rfl
  | succ f ih =>
      intro a now
      simp only [get_pull]
      cases resp (a + 1) with
      | ok p => rfl
      | rateLimit d => simp only [ih (a + 1) now]
      | otherError => rfl

/-- Under `N` rate-limit rejections followed by a success, `get_pull`
makes exactly `N + 1` calls and returns the pull, but every call is
issued at the original start time: no retry waits for the signalled
reset, because the source never awaits the timeout it constructs. -/
theorem get_pull_no_wait (N : Nat) :
    ∀ (resp : Nat → PullResponse) (d : Nat → Nat) (p : Pull) (fuel t0 : Nat),
      (∀ i, i < N → resp i = PullResponse.rateLimit (d i)) →
      resp N = PullResponse.ok p →
      N < fuel →
      (get_pull resp fuel 0 t0).1 = FetchOutcome.success p ∧
      (get_pull resp fuel 0 t0).2.length = N + 1 ∧
      (∀ t, t ∈ (get_pull resp fuel 0 t0).2 → t = t0) := by
  induction N with
  | zero =>
      intro resp d p fuel t0 _ hok hfuel
      obtain ⟨f, rfl⟩ : ∃ f, fuel = f + 1 :=
        ⟨fuel - 1, by omega⟩
      have hg : get_pull resp (f + 1) 0 t0 = (FetchOutcome.success p, [t0]) := by
        simp only [get_pull, hok]
      rw [hg]
      refine ⟨rfl, rfl, fun t ht => ?_⟩
      simpa using ht
  | succ n ih =>
      intro resp d p fuel t0 hrej hok hfuel
      obtain ⟨f, rfl⟩ : ∃ f, fuel = f + 1 :=
        ⟨fuel - 1, by omega⟩
      have h0 : resp 0 = PullResponse.rateLimit (d 0) :=
        hrej 0 (Nat.succ_pos n)
      have hrec := ih (fun i => resp (i + 1)) (fun i => d (i + 1)) p f t0
        (fun i hi => hrej (i + 1) (Nat.succ_lt_succ hi))
        hok
        (Nat.lt_of_succ_lt_succ hfuel)
      have hg : get_pull resp (f + 1) 0 t0 =
          ((get_pull (fun i => resp (i + 1)) f 0 t0).1,
           t0 :: (get_pull (fun i => resp (i + 1)) f 0 t0).2) := by
        simp only [get_pull, h0, get_pull_shift]
      rw [hg]
      refine ⟨hrec.1, by simp only [List.length_cons, hrec.2.1], fun t ht => ?_⟩
      rcases List.mem_cons.mp ht with h | h
      · exact h
      · exact hrec.2.2 t h

/-- Claim C2 (code-bug evidence): against an endpoint that rejects the
first call with a rate-limit signal of reset duration 3 and succeeds
on the second call, the retrying lookup makes exactly two calls and
returns the pull, but both calls are issued at time 100 — the second
call is not delayed until the reset time 103, because the timeout the
source constructs is discarded unpolled (and its reactor dropped), so
the retry happens immediately. -/
theorem claim_C2_code_bug :
    (get_pull (fun i => if i < 1 then PullResponse.rateLimit 3
        else PullResponse.ok ⟨9, 0⟩) 5 0 100).1 =
      FetchOutcome.success ⟨9, 0⟩ ∧
    (get_pull (fun i => if i < 1 then PullResponse.rateLimit 3
        else PullResponse.ok ⟨9, 0⟩) 5 0 100).2 = [100, 100] ∧
    (100 : Nat) < 100 + 3 := by
  decide

/-- When `joinAll` returns a collected batch, every constituent outcome
was a success and the batch is the outcome list stripped of its
`success` wrappers. -/
theorem allSuccess_of_joinAll_ok (rs : List FetchOutcome) (ps : List Pull)
    (h : joinAll rs = BatchResult.ok ps) :
    (∀ r, r ∈ rs → ∃ p, r = FetchOutcome.success p) ∧
    ps = rs.filterMap FetchOutcome.pullOf := by
  unfold joinAll at h
  by_cases h1 : rs.any FetchOutcome.isFatal
  · rw [if_pos h1] at h; cases h
  · rw [if_neg h1] at h
    by_cases h2 : rs.any FetchOutcome.isPending
    · rw [if_pos h2] at h; cases h
    · rw [if_neg h2] at h
      cases h
      refine ⟨fun r hr => ?_, rfl⟩
      cases r with
      | success p => exact ⟨p, rfl⟩
      | fatal =>
          exact absurd (List.any_eq_true.mpr ⟨_, hr, rfl⟩) h1
      | pending =>
          exact absurd (List.any_eq_true.mpr ⟨_, hr, rfl⟩) h2

/-- An all-success outcome list is the `success` image of its collected
pulls. -/
theorem success_list_eq (rs : List FetchOutcome)
    (h : ∀ r, r ∈ rs → ∃ p, r = FetchOutcome.success p) :
    rs = (rs.filterMap FetchOutcome.pullOf).map FetchOutcome.success := by
  induction rs with
  | nil => rfl
  | cons a t ih =>
      rcases h a (List.mem_cons_self a t) with ⟨p, rfl⟩
      simp only [List.filterMap_cons, FetchOutcome.pullOf, List.map_cons]
      exact congrArg _ (ih fun r hr => h r (List.mem_cons_of_mem _ hr))

/-- Mapping commutes with positional lookup, for any in-range index. -/
theorem getD_map {α : Type} {β : Type} (f : α → β) (l : List α) (i : Nat)
    (h : i < l.length) (d : α) (d2 : β) :
    (l.map f).getD i d2 = f (l.getD i d) := by
  induction l generalizing i with
  | nil => exact absurd h (by simp)
  | cons a t ih =>
      cases i with
      | zero => rfl
      | succ j => exact ih j (Nat.lt_of_succ_lt_succ h)

/-- A successful `handle_pulls` batch has one entry per requested key,
positionally matching the keys. -/
theorem handle_pulls_ok_spec (resp : Nat → Nat → PullResponse) (fuel : Nat)
    (pull_nums : List Nat) (ps : List Pull)
    (h : handle_pulls resp fuel pull_nums = BatchResult.ok ps) :
    ps.length = pull_nums.length ∧
    ∀ i, i < pull_nums.length →
      (get_pull (resp (pull_nums.getD i 0)) fuel 0 0).1 =
        FetchOutcome.success (ps.getD i ⟨0, 0⟩) := by
  have hall := allSuccess_of_joinAll_ok (lookupOutcomes resp fuel pull_nums) ps h
  have hrs : lookupOutcomes resp fuel pull_nums = ps.map FetchOutcome.success := by
    rw [success_list_eq _ hall.1, ← hall.2]
  have hlen : ps.length = pull_nums.length := by
    have h1 : (lookupOutcomes resp fuel pull_nums).length = pull_nums.length := by
      simp [lookupOutcomes]
    rw [hrs] at h1
    simpa using h1
  refine ⟨hlen, fun i hi => ?_⟩
  have h1 : (lookupOutcomes resp fuel pull_nums).getD i FetchOutcome.pending =
      (get_pull (resp (pull_nums.getD i 0)) fuel 0 0).1 := by
    simp only [lookupOutcomes]
    exact getD_map _ pull_nums i hi 0 FetchOutcome.pending
  have h2 : (lookupOutcomes resp fuel pull_nums).getD i FetchOutcome.pending =
      FetchOutcome.success (ps.getD i ⟨0, 0⟩) := by
    rw [hrs]
    exact getD_map _ ps i (by rw [hlen]; exact hi) ⟨0, 0⟩ FetchOutcome.pending
  rw [← h1, h2]

/-- Claim C6: whenever `handle_pulls` succeeds, its result collection
has exactly one entry per requested key — the lengths agree and the
entry at position `i` is the pull the detail endpoint successfully
returned for the key at position `i`. Any other outcome of the batch is
`failed` or `pending`, never a partial collection. -/
theorem claim_C6 (resp : Nat → Nat → PullResponse) (fuel : Nat)
    (pull_nums : List Nat) (ps : List Pull)
    (h : handle_pulls resp fuel pull_nums = BatchResult.ok ps) :
    ps.length = pull_nums.length ∧
    ∀ i, i < pull_nums.length →
      (get_pull (resp (pull_nums.getD i 0)) fuel 0 0).1 =
        FetchOutcome.success (ps.getD i ⟨0, 0⟩) :=
  handle_pulls_ok_spec resp fuel pull_nums ps h

/-- Claim C6 (witness): for keys 4 and 7 against an endpoint that
answers every key at once, the batch succeeds with exactly one pull per
key, in length and in position. -/
theorem claim_C6_witness :
    handle_pulls (fun n _ => PullResponse.ok ⟨n, 0⟩) 1 [4, 7] =
      BatchResult.ok [⟨4, 0⟩, ⟨7, 0⟩] ∧
    ([⟨4, 0⟩, ⟨7, 0⟩] : List Pull).length = ([4, 7] : List Nat).length :=
  ⟨by decide,
   (claim_C6 (fun n _ => PullResponse.ok ⟨n, 0⟩) 1 [4, 7] [⟨4, 0⟩, ⟨7, 0⟩]
      (by decide)).1⟩

/-- Filling result slots never changes the number of slots. -/
theorem fillSlots_length (rs : List FetchOutcome) (sched : List Nat) :
    ∀ slots : List (Option FetchOutcome),
      (fillSlots rs sched slots).length = slots.length := by
  induction sched with
  | nil => intro slots; rfl
  | cons j rest ih =>
      intro slots
      simp only [fillSlots]
      rw [ih, List.length_set]

/-- After the schedule is processed, every scheduled slot holds the
outcome of its own future; unscheduled slots are untouched. -/
theorem fillSlots_getElem (rs : List FetchOutcome) (sched : List Nat) :
    ∀ (slots : List (Option FetchOutcome)) (i : Nat), i < slots.length →
      (fillSlots rs sched slots)[i]? =
        (if i ∈ sched then some (some (rs.getD i FetchOutcome.pending))
         else slots[i]?) := by
  induction sched with
  | nil =>
      intro slots i _
      simp [fillSlots]
  | cons j rest ih =>
      intro slots i hi
      simp only [fillSlots]
      rw [ih _ i (by rw [List.length_set]; exact hi)]
      by_cases hmem : i ∈ rest
      · rw [if_pos hmem, if_pos (List.mem_cons_of_mem j hmem)]
      · rw [if_neg hmem]
        by_cases hij : i = j
        · subst hij
          rw [if_pos (List.mem_cons_self i rest), List.getElem?_set_self hi]
        · have hnotin : ¬ i ∈ (j :: rest) := by
            intro hmem2
            rcases List.mem_cons.mp hmem2 with h | h
            · exact hij h
            · exact hmem h
          rw [if_neg hnotin, List.getElem?_set_ne (fun h => hij h.symm)]

/-- A schedule covering every future fills every slot with the outcome
of its own future, whatever the order of completions. -/
theorem fillSlots_covers (rs : List FetchOutcome) (sched : List Nat)
    (hc : ∀ i, i < rs.length → i ∈ sched) :
    fillSlots rs sched (List.replicate rs.length none) = rs.map some := by
  apply List.ext_getElem?
  intro n
  by_cases hn : n < rs.length
  · rw [fillSlots_getElem rs sched _ n (by simpa using hn), if_pos (hc n hn),
      List.getElem?_map, List.getD_eq_getElem?_getD,
      List.getElem?_eq_getElem hn]
    simp
  · have h1 : (fillSlots rs sched (List.replicate rs.length none)).length
        = rs.length := by
      rw [fillSlots_length, List.length_replicate]
    rw [List.getElem?_eq_none (by rw [h1]; omega),
      List.getElem?_eq_none (by rw [List.length_map]; omega)]

/-- Joining under any covering completion schedule gives the same batch
as the order-preserving join. -/
theorem joinAllScheduled_eq (rs : List FetchOutcome) (sched : List Nat)
    (hc : ∀ i, i < rs.length → i ∈ sched) :
    joinAllScheduled rs sched = joinAll rs := by
  unfold joinAllScheduled
  rw [fillSlots_covers rs sched hc]
  congr 1
  rw [List.map_map]
  have hcomp : ((fun o : Option FetchOutcome => o.getD FetchOutcome.pending) ∘ some)
      = id := by
    funext x; rfl
  rw [hcomp, List.map_id]

/-- Claim C9: when every detail lookup succeeds, `handle_pulls` returns
the pulls in exactly the order of the input key list — the entry at
position `i` is the successful pull for the key at position `i` — and
the collected batch is the same under every completion schedule of the
concurrent lookups that completes each of them. -/
theorem claim_C9 (resp : Nat → Nat → PullResponse) (fuel : Nat)
    (pull_nums : List Nat) (sched : List Nat) (ps : List Pull)
    (hc : ∀ i, i < pull_nums.length → i ∈ sched)
    (h : handle_pulls resp fuel pull_nums = BatchResult.ok ps) :
    joinAllScheduled (lookupOutcomes resp fuel pull_nums) sched =
      BatchResult.ok ps ∧
    ps.length = pull_nums.length ∧
    ∀ i, i < pull_nums.length →
      (get_pull (resp (pull_nums.getD i 0)) fuel 0 0).1 =
        FetchOutcome.success (ps.getD i ⟨0, 0⟩) := by
  have hlen : (lookupOutcomes resp fuel pull_nums).length = pull_nums.length := by
    simp [lookupOutcomes]
  have hsched := joinAllScheduled_eq (lookupOutcomes resp fuel pull_nums) sched
    (fun i hi => hc i (by rw [← hlen]; exact hi))
  have hspec := handle_pulls_ok_spec resp fuel pull_nums ps h
  exact ⟨by rw [hsched]; exact h, hspec.1, hspec.2⟩

/-- Claim C9 (witness): for keys 4 and 7, even when the completion of
the second lookup is observed first (schedule `[1, 0]`), the batch is
collected in key order. -/
theorem claim_C9_witness :
    handle_pulls (fun n _ => PullResponse.ok ⟨n, 0⟩) 1 [4, 7] =
      BatchResult.ok [⟨4, 0⟩, ⟨7, 0⟩] ∧
    joinAllScheduled
      (lookupOutcomes (fun n _ => PullResponse.ok ⟨n, 0⟩) 1 [4, 7]) [1, 0] =
      BatchResult.ok [⟨4, 0⟩, ⟨7, 0⟩] :=
  ⟨by decide,
   (claim_C9 (fun n _ => PullResponse.ok ⟨n, 0⟩) 1 [4, 7] [1, 0]
      [⟨4, 0⟩, ⟨7, 0⟩] (by decide) (by decide)).1⟩

/-- Yield events wrap and unwrap without loss. -/
theorem filterMap_yieldOf_map (l : List Issue) :
    (l.map PageEvent.yield).filterMap yieldOf = l := by
  induction l with
  | nil => rfl
  | cons a t ih => simp [yieldOf, ih]

/-- Yield events are not requests. -/
theorem countP_isRequest_yields (l : List Issue) :
    (l.map PageEvent.yield).countP isRequest = 0 := by
  induction l with
  | nil => rfl
  | cons a t ih => simp [isRequest, List.countP_cons, ih]

/-- The records yielded by a pagination trace are exactly the
concatenation of the pages, in server order. -/
theorem paginateTrace_yields (pages : List (List Issue)) :
    ∀ idx, (paginateTrace pages idx).filterMap yieldOf = pages.flatten := by
  induction pages with
  | nil => intro idx; rfl
  | cons pg rest ih =>
      intro idx
      simp only [paginateTrace, List.filterMap_cons, yieldOf, List.flatten_cons]
      rw [List.filterMap_append, ih, filterMap_yieldOf_map]

/-- A pagination trace makes exactly one request per page served. -/
theorem paginateTrace_requests (pages : List (List Issue)) :
    ∀ idx, (paginateTrace pages idx).countP isRequest = pages.length := by
  induction pages with
  | nil => intro idx; rfl
  | cons pg rest ih =>
      intro idx
      show (PageEvent.request idx ::
        (pg.map PageEvent.yield ++ paginateTrace rest (idx + 1))).countP isRequest
          = rest.length + 1
      rw [List.countP_cons, List.countP_append, countP_isRequest_yields,
        ih (idx + 1)]
      simp [isRequest]

/-- A pagination trace splits at a page boundary: the pages before the
boundary contribute their whole trace first, then the remaining pages
are requested starting from the boundary index. -/
theorem paginateTrace_append (p2 : List (List Issue)) :
    ∀ (p1 : List (List Issue)) (idx : Nat),
      paginateTrace (p1 ++ p2) idx =
        paginateTrace p1 idx ++ paginateTrace p2 (idx + p1.length) := by
  intro p1
  induction p1 with
  | nil => intro idx; rfl
  | cons pg rest ih =>
      intro idx
      simp only [List.cons_append, paginateTrace, List.length_cons,
        List.append_assoc, List.append_eq]
      rw [ih (idx + 1)]
      have hidx : idx + 1 + rest.length = idx + (rest.length + 1) := by omega
      rw [hidx]

/-- Claim C8 (Paginator modelled from the spec; the pagination loop
lives in the hubcaps dependency, not under src/): for a listing
endpoint serving the given pages, the Paginator yields exactly the
concatenation of all pages in server order, with total count the sum of
the page sizes; it makes exactly one request per page, ending when the
server signals no further pages; and fetching is sequential: before
page `i` is requested, exactly the pages up to `i` have been requested
and each has been fully yielded. -/
theorem claim_C8 (pages : List (List Issue)) (i : Nat) (h : i < pages.length) :
    paginate pages = pages.flatten ∧
    (paginate pages).length = (pages.map List.length).sum ∧
    (paginateTrace pages 0).countP isRequest = pages.length ∧
    ∃ pre post,
      paginateTrace pages 0 =
        pre ++ PageEvent.request i ::
          ((pages.get ⟨i, h⟩).map PageEvent.yield ++ post) ∧
      pre.filterMap yieldOf = (pages.take i).flatten ∧
      pre.countP isRequest = i := by
  refine ⟨paginateTrace_yields pages 0, ?_, paginateTrace_requests pages 0, ?_⟩
  · show ((paginateTrace pages 0).filterMap yieldOf).length = _
    rw [paginateTrace_yields pages 0]
    exact List.length_flatten pages
  · have htl : (pages.take i).length = i := by
      rw [List.length_take]
      omega
    have hsplit : pages = pages.take i ++ pages.drop i :=
      (List.take_append_drop i pages).symm
    have hdrop : pages.drop i = pages.get ⟨i, h⟩ :: pages.drop (i + 1) := by
      rw [List.get_eq_getElem]
      exact List.drop_eq_getElem_cons h
    refine ⟨paginateTrace (pages.take i) 0,
      paginateTrace (pages.drop (i + 1)) (i + 1), ?_,
      paginateTrace_yields (pages.take i) 0, ?_⟩
    · conv_lhs => rw [hsplit]
      rw [paginateTrace_append (pages.drop i) (pages.take i) 0, hdrop]
      simp only [paginateTrace, htl, Nat.zero_add]
    · rw [paginateTrace_requests (pages.take i) 0]
      exact htl

/-- Claim C8 (witness): two pages, the second partial, are drained into
their concatenation, with one request per page, and page 1 is requested
only after page 0 is fully yielded. -/
theorem claim_C8_witness :
    (1 : Nat) < ([[⟨1, none, 0⟩, ⟨2, none, 0⟩], [⟨3, none, 0⟩]] :
      List (List Issue)).length ∧
    paginate [[⟨1, none, 0⟩, ⟨2, none, 0⟩], [⟨3, none, 0⟩]] =
      [⟨1, none, 0⟩, ⟨2, none, 0⟩, ⟨3, none, 0⟩] :=
  ⟨by decide,
   by
    rw [(claim_C8 [[⟨1, none, 0⟩, ⟨2, none, 0⟩], [⟨3, none, 0⟩]] 1
      (by decide)).1]
    decide⟩

/-- Claim C10: `serialize_to_file` creates (truncating if present) the
destination file before any encoding happens, so the bytes the encoder
manages to emit become the file contents even when encoding fails
partway; in that case an error is returned while the destination file
exists with the incomplete contents — the snapshot write is not atomic
on encoding error. -/
theorem claim_C10 (enc : Encoding) (name : String) (fs : FS) :
    (serialize_to_file true enc name fs).2 name = some enc.bytes ∧
    (enc.ok = false → (serialize_to_file true enc name fs).1 = Except.error ()) ∧
    (enc.ok = true → (serialize_to_file true enc name fs).1 = Except.ok ()) := by
  by_cases h : enc.ok
  · refine ⟨?_, fun hc => absurd h (by rw [hc]; exact Bool.false_ne_true), fun _ => ?_⟩
    · simp [serialize_to_file, setFile, h]
    · simp [serialize_to_file, h]
  · rw [Bool.not_eq_true] at h
    refine ⟨?_, fun _ => ?_, fun hc => absurd hc (by rw [h]; exact Bool.false_ne_true)⟩
    · simp [serialize_to_file, setFile, h]
    · simp [serialize_to_file, h]

/-- Claim C10 (witness): an encoder that emits bytes `[3, 4]` and then
fails leaves the destination file in place with exactly those
incomplete contents while the writer returns an error. -/
theorem claim_C10_witness :
    (⟨[3, 4], false⟩ : Encoding).ok = false ∧
    (serialize_to_file true ⟨[3, 4], false⟩ "pulls.msgpack" emptyFS).2
      "pulls.msgpack" = some [3, 4] ∧
    (serialize_to_file true ⟨[3, 4], false⟩ "pulls.msgpack" emptyFS).1 =
      Except.error () :=
  ⟨rfl, (claim_C10 ⟨[3, 4], false⟩ "pulls.msgpack" emptyFS).1,
   (claim_C10 ⟨[3, 4], false⟩ "pulls.msgpack" emptyFS).2.1 rfl⟩

/-- A snapshot write never touches any file other than its
destination. -/
theorem serialize_other_file (c : Bool) (enc : Encoding) (nm nm2 : String)
    (fs : FS) (hne : nm2 ≠ nm) :
    (serialize_to_file c enc nm fs).2 nm2 = fs nm2 := by
  by_cases hc : c
  · by_cases he : enc.ok
    · simp [serialize_to_file, setFile, hc, he, hne]
    · simp [serialize_to_file, setFile, hc, he, hne]
  · simp [serialize_to_file, hc]

/-- One fatal lookup makes the whole `handle_pulls` batch fail. -/
theorem handle_pulls_failed_of_fatal (resp : Nat → Nat → PullResponse)
    (fuel : Nat) (pull_nums : List Nat) (n : Nat) (hn : n ∈ pull_nums)
    (hf : (get_pull (resp n) fuel 0 0).1 = FetchOutcome.fatal) :
    handle_pulls resp fuel pull_nums = BatchResult.failed := by
  have hany : (lookupOutcomes resp fuel pull_nums).any FetchOutcome.isFatal
      = true := by
    refine List.any_eq_true.mpr ⟨(get_pull (resp n) fuel 0 0).1, ?_, ?_⟩
    · simp only [lookupOutcomes]
      exact List.mem_map.mpr ⟨n, hn, rfl⟩
    · rw [hf]; rfl
  unfold handle_pulls joinAll
  rw [if_pos hany]

/-- Claim C3: if any one of the concurrent detail lookups fails with a
non-rate-limit error, the run does not succeed and no detail-collection
snapshot is written: the file system after the run has no pulls file,
at most the issues snapshot. -/
theorem claim_C3 (env : Env) (n : Nat)
    (hn : n ∈ (partitionByPull (paginate env.pages)).2)
    (hf : (get_pull (env.resp n) env.fuel 0 0).1 = FetchOutcome.fatal) :
    (run env).outcome ≠ RunOutcome.ok ∧ (run env).fs pullsFile = none := by
  have hfail : handle_pulls env.resp env.fuel
      (partitionByPull (paginate env.pages)).2 = BatchResult.failed :=
    handle_pulls_failed_of_fatal env.resp env.fuel _ n hn hf
  have hpn : pullsFile ≠ issuesFile := by decide
  have hempty : emptyFS pullsFile = none := rfl
  by_cases hm : env.mkdirOk
  · by_cases hl : env.listingOk
    · simp only [run, hm, hl, if_true]
      split
      · refine ⟨by simp, ?_⟩
        show (serialize_to_file env.issuesCreateOk
            (env.issuesEnc (partitionByPull (paginate env.pages)).1)
            issuesFile emptyFS).2 pullsFile = none
        rw [serialize_other_file _ _ _ _ _ hpn]
        exact hempty
      · rw [hfail]
        refine ⟨by simp, ?_⟩
        show (serialize_to_file env.issuesCreateOk
            (env.issuesEnc (partitionByPull (paginate env.pages)).1)
            issuesFile emptyFS).2 pullsFile = none
        rw [serialize_other_file _ _ _ _ _ hpn]
        exact hempty
    · simp only [run, hm, hl, if_true, Bool.false_eq_true, if_false]
      exact ⟨by simp, hempty⟩
  · simp only [run, hm, Bool.false_eq_true, if_false]
    exact ⟨by simp, hempty⟩

/-- A sample environment: one pull-request-linked issue whose detail
lookup fails with a non-rate-limit error. -/
def sampleFatalEnv : Env where
  mkdirOk := true
  listingOk := true
  pages := [[⟨1, some (), 0⟩]]
  resp := fun _ _ => PullResponse.otherError
  fuel := 1
  issuesCreateOk := true
  issuesEnc := fun _ => ⟨[1], true⟩
  pullsCreateOk := true
  pullsEnc := fun _ => ⟨[2], true⟩

/-- Claim C3 (witness): in `sampleFatalEnv`, key 1 is requested, its
lookup is fatal, the run does not succeed, and no pulls snapshot
exists afterwards. -/
theorem claim_C3_witness :
    1 ∈ (partitionByPull (paginate sampleFatalEnv.pages)).2 ∧
    (get_pull (sampleFatalEnv.resp 1) sampleFatalEnv.fuel 0 0).1 =
      FetchOutcome.fatal ∧
    (run sampleFatalEnv).outcome ≠ RunOutcome.ok ∧
    (run sampleFatalEnv).fs pullsFile = none :=
  ⟨by decide, by decide,
   (claim_C3 sampleFatalEnv 1 (by decide) (by decide)).1,
   (claim_C3 sampleFatalEnv 1 (by decide) (by decide)).2⟩

/-- Claim C7: the Run Orchestrator executes, after the output-directory
creation, the steps build ListingRequest (state all, ascending order,
page size 100), drain the Paginator, partition, write subset A, run the
Throttled Fetcher, write the detail collection — in that order, each
step starting only if every earlier step succeeded: the recorded trace
is always a prefix of the full step list, a run with no failed step is
the successful full run, and a failed (or never-completing) step is the
last step that started, every later step being aborted. -/
theorem claim_C7 (env : Env) :
    fullSteps = [StepKind.mkdir,
      StepKind.build { state := StateFilter.all, asc := true, per_page := 100 },
      StepKind.drain, StepKind.split, StepKind.writeIssues,
      StepKind.fetchPulls, StepKind.writePulls] ∧
    (∃ k, (run env).trace = fullSteps.take k) ∧
    ((run env).failedStep = none ∧ (run env).outcome = RunOutcome.ok ∧
        (run env).trace = fullSteps ∨
      ∃ s, (run env).failedStep = some s ∧ (run env).outcome ≠ RunOutcome.ok ∧
        (run env).trace.getLast? = some s) := by
  refine ⟨rfl, ?_⟩
  by_cases hm : env.mkdirOk
  · by_cases hl : env.listingOk
    · simp only [run, hm, hl, if_true]
      split
      · exact ⟨⟨5, rfl⟩, Or.inr ⟨StepKind.writeIssues, rfl, by simp, rfl⟩⟩
      · split
        · exact ⟨⟨6, rfl⟩, Or.inr ⟨StepKind.fetchPulls, rfl, by simp, rfl⟩⟩
        · exact ⟨⟨6, rfl⟩, Or.inr ⟨StepKind.fetchPulls, rfl, by simp, rfl⟩⟩
        · split
          · exact ⟨⟨7, rfl⟩, Or.inr ⟨StepKind.writePulls, rfl, by simp, rfl⟩⟩
          · exact ⟨⟨7, rfl⟩, Or.inl ⟨rfl, rfl, rfl⟩⟩
    · simp only [run, hm, hl, if_true, Bool.false_eq_true, if_false]
      exact ⟨⟨3, rfl⟩, Or.inr ⟨StepKind.drain, rfl, by simp, rfl⟩⟩
  · simp only [run, hm, Bool.false_eq_true, if_false]
    exact ⟨⟨1, rfl⟩, Or.inr ⟨StepKind.mkdir, rfl, by simp, rfl⟩⟩

end GithubDataFetch
